import Mathlib

/-!
Verification of the ShuffleNet ImageNet training driver
(`official/vision/classification/shufflenet/train.py`).

The Python source is shallowly embedded below: the loop and scheduling
arithmetic is modelled over `ℕ`/`ℚ`, stateful objects (`AverageMeter`,
optimizer parameter groups, the per-step event sequence of the training
loop) become explicit functional state, and Python's dynamically typed
comparison becomes a function into `Except`.
-/

namespace Train

/-- `steps_per_epoch = 1280000 // (world_size * args.batch_size)`
(train.py line 142). -/
def steps_per_epoch (world_size batch_size : ℕ) : ℕ :=
  1280000 / (world_size * batch_size)

/-- The learning-rate value computed by `adjust_learning_rate`
(train.py line 198): `lr = args.lr * (1 - step / (args.epochs * steps_per_epoch))`,
with `args.lr` already scaled by `world_size` (line 158).  Arithmetic is
modelled exactly over `ℚ`. -/
def adjust_learning_rate_val (base_lr : ℚ) (epochs spe : ℕ) (step : ℕ) : ℚ :=
  base_lr * (1 - (step : ℚ) / ((epochs : ℚ) * (spe : ℚ)))

/-- `adjust_learning_rate` (train.py lines 197-201): writes the computed `lr`
into every optimizer parameter group (modelled as the list of their `lr`
fields) and returns it. -/
def adjust_learning_rate (base_lr : ℚ) (epochs spe : ℕ) (step : ℕ)
    (param_groups : List ℚ) : List ℚ × ℚ :=
  let lr := adjust_learning_rate_val base_lr epochs spe step
  (param_groups.map (fun _ => lr), lr)

/-- `F.distributed.all_reduce_sum` applied to a scalar: the collective
returns, at every worker, the sum of the per-worker values.  Modelled from
the framework collective's summation semantics (the framework itself is
outside this repository). -/
def all_reduce_sum (vals : List ℚ) : ℚ := vals.sum

/-- The aggregation stage of `valid_step` (train.py lines 190-193), applied
to each of `loss`, `acc1`, `acc5`: when `world_size > 1` the local value is
replaced by `all_reduce_sum(...) / world_size`, otherwise it is returned
unchanged.  `vals` is the list of per-worker values of the metric and
`localVal` the value this worker computed. -/
def valid_step_agg (world_size : ℕ) (vals : List ℚ) (localVal : ℚ) : ℚ :=
  if world_size > 1 then all_reduce_sum vals / (world_size : ℚ) else localVal

/-- Modelled from the spec: "All-reduce: a collective operation that
averages a tensor across all participating worker processes" — the
arithmetic mean of the per-worker values. -/
def spec_allreduce_mean (vals : List ℚ) : ℚ := vals.sum / (vals.length : ℚ)

/-- `AverageMeter` (train.py lines 341-363): stored fields after
`__init__`/`reset`/`update`. -/
structure AverageMeter where
  val : ℚ
  avg : ℚ
  sum : ℚ
  count : ℚ
deriving Repr, DecidableEq

/-- `AverageMeter.reset` (train.py lines 349-353). -/
def AverageMeter.reset : AverageMeter :=
  { val := 0, avg := 0, sum := 0, count := 0 }

/-- `AverageMeter.update` (train.py lines 355-359). -/
def AverageMeter.update (m : AverageMeter) (v : ℚ) (n : ℚ) : AverageMeter :=
  let sum := m.sum + v * n
  let count := m.count + n
  { val := v, avg := sum / count, sum := sum, count := count }

/-- A finite sequence of `update` calls applied in order. -/
def applyUpdates (us : List (ℚ × ℚ)) (m : AverageMeter) : AverageMeter :=
  us.foldl (fun m u => m.update u.1 u.2) m

/-- Observable events of one iteration of the training loop
(train.py lines 209-257): the gradient update itself, the validation pass,
and the checkpoint save with the `epoch` value stored in it. -/
inductive Event where
  | train (step : ℕ)
  | validate (step : ℕ)
  | save (step : ℕ) (epoch : ℕ)
deriving Repr, DecidableEq

/-- Whether an event is a checkpoint save. -/
def Event.isSave : Event → Bool
  | .save _ _ => true
  | _ => false

/-- The events of the loop body at a given `step` (train.py lines 209-257):
a training step always; then, exactly when `(step + 1) % steps_per_epoch == 0`,
a validation pass followed by a checkpoint save recording
`epoch = (step + 1) // steps_per_epoch`. -/
def stepEvents (spe : ℕ) (step : ℕ) : List Event :=
  [Event.train step] ++
    (if (step + 1) % spe = 0 then
      [Event.validate step, Event.save step ((step + 1) / spe)]
    else [])

/-- The full event trace of `for step in range(0, args.epochs * steps_per_epoch)`
(train.py line 209). -/
def runEvents (epochs spe : ℕ) : List Event :=
  (List.range (epochs * spe)).flatMap (stepEvents spe)

/-- The arguments `main` passes to each worker process
(train.py lines 103-111). -/
structure WorkerCfg where
  rank : ℕ
  world_size : ℕ
  ngpus_per_node : ℕ
deriving Repr, DecidableEq

/-- `main`'s launch loop (train.py lines 103-114): one worker per
`local_rank in range(ngpus_per_node)` with
`rank = args.rank * ngpus_per_node + local_rank` and
`world_size = args.world_size * ngpus_per_node`. -/
def launch (args_rank args_world_size ngpus_per_node : ℕ) : List WorkerCfg :=
  (List.range ngpus_per_node).map fun local_rank =>
    { rank := args_rank * ngpus_per_node + local_rank,
      world_size := args_world_size * ngpus_per_node,
      ngpus_per_node := ngpus_per_node }

/-- The worker joins the process group iff `world_size > 1`
(train.py line 126). -/
def worker_joins_group (cfg : WorkerCfg) : Bool :=
  cfg.world_size > 1

/-- The device passed to `dist.init_process_group` (train.py line 132):
`rank % ngpus_per_node`. -/
def worker_device (cfg : WorkerCfg) : ℕ :=
  cfg.rank % cfg.ngpus_per_node

/-- The distributed-framework calls the worker issues during bootstrap
(train.py lines 126-155): whether `dist.init_process_group` runs, whether
`dist.bcast_list_` runs, and the callback mode handed to
`GradManager().attach` (`some "MEAN"` for `dist.make_allreduce_cb("MEAN")`,
`none` for Python `None`). -/
structure BootstrapActions where
  init_group : Bool
  bcast_params : Bool
  allreduce_cb : Option String
deriving Repr, DecidableEq

/-- The bootstrap behaviour as a function of `world_size`
(train.py lines 126-155). -/
def worker_bootstrap (world_size : ℕ) : BootstrapActions :=
  { init_group := world_size > 1,
    bcast_params := world_size > 1,
    allreduce_cb := if world_size > 1 then some "MEAN" else none }

/-- A Python runtime value of the kinds the argument parsing produces. -/
inductive PyVal where
  | int (n : ℤ)
  | float (q : ℚ)
  | str (s : String)
deriving Repr, DecidableEq

/-- Python's `<=` comparison on such values: numeric comparisons succeed,
strings compare with strings, and any string/number mix raises `TypeError`
(Python 3 semantics). -/
def pyLe : PyVal → PyVal → Except String Bool
  | .int a, .int b => .ok (decide (a ≤ b))
  | .int a, .float b => .ok (decide ((a : ℚ) ≤ b))
  | .float a, .int b => .ok (decide (a ≤ (b : ℚ)))
  | .float a, .float b => .ok (decide (a ≤ b))
  | .str a, .str b => .ok (decide (a < b) || (a == b))
  | _, _ => .error "TypeError"

/-- `argparse` semantics for an option declared with a `default` and no
`type=` converter (train.py lines 52-87): when the option is supplied on the
command line its value is the raw string; otherwise it is the default object
unchanged. -/
def argparse_value (default : PyVal) (supplied : Option String) : PyVal :=
  match supplied with
  | some s => PyVal.str s
  | none => default

/-- A named model parameter as seen by the optimizer-group loop
(train.py lines 159-167): its name and tensor shape. -/
structure ParamInfo where
  name : String
  shape : List ℕ
deriving Repr, DecidableEq

/-- The condition of train.py line 162:
`n.find("weight") >= 0 and len(p.shape) > 1` — Python's `str.find` is
nonnegative exactly when the substring occurs. -/
def weight_decay_param (p : ParamInfo) : Bool :=
  decide ("weight".data <:+: p.name.data) && decide (1 < p.shape.length)

/-- The loop of train.py lines 159-167 building `params_wd` and
`params_nwd` in order. -/
def split_params (ps : List ParamInfo) : List ParamInfo × List ParamInfo :=
  ps.foldl
    (fun acc p =>
      if weight_decay_param p then (acc.1 ++ [p], acc.2) else (acc.1, acc.2 ++ [p]))
    ([], [])

/-- One batch as consumed by `valid` (train.py lines 267-279): the batch
size `n = image.shape[0]`, the three metric values `func` returns, and the
elapsed wall-clock time. -/
structure Batch where
  n : ℚ
  loss : ℚ
  acc1 : ℚ
  acc5 : ℚ
  dt : ℚ
deriving Repr, DecidableEq

/-- The four meters of `valid` (train.py lines 261-264). -/
structure ValidState where
  objs : AverageMeter
  top1 : AverageMeter
  top5 : AverageMeter
  clck : AverageMeter
deriving Repr, DecidableEq

/-- The meters as freshly constructed at the top of `valid`. -/
def validInit : ValidState :=
  { objs := AverageMeter.reset, top1 := AverageMeter.reset,
    top5 := AverageMeter.reset, clck := AverageMeter.reset }

/-- One iteration of `valid`'s loop body (train.py lines 267-279). -/
def validBody (st : ValidState) (b : Batch) : ValidState :=
  { objs := st.objs.update b.loss b.n,
    top1 := st.top1.update (100 * b.acc1) b.n,
    top5 := st.top5.update (100 * b.acc5) b.n,
    clck := st.clck.update b.dt b.n }

/-- `valid` (train.py lines 260-284): fold the loop body over the batches
the data queue yields and return `(objs.avg, top1.avg, top5.avg)`. -/
def valid (batches : List Batch) : ℚ × ℚ × ℚ :=
  let st := batches.foldl validBody validInit
  (st.objs.avg, st.top1.avg, st.top5.avg)

end Train

namespace Train

/-- Claim C1 as stated is false: with `world_size = 1` and `batch_size = 3`,
`steps_per_epoch * batch_size * world_size = 1279998 ≠ 1280000`, so the
epoch does not consume exactly the whole training dataset. -/
theorem steps_per_epoch_not_exact_cex :
    ¬ (steps_per_epoch 1 3 * 3 * 1 = 1280000) := by decide

/-- Claim C1 (amended): an epoch consumes
`1280000 - 1280000 % (world_size * batch_size)` training samples, which
equals the full `1280000` exactly when `world_size * batch_size` divides
`1280000` (as it does for the defaults). -/
theorem steps_per_epoch_samples (ws bs : ℕ) :
    steps_per_epoch ws bs * bs * ws = 1280000 - 1280000 % (ws * bs) ∧
    (ws * bs ∣ 1280000 → steps_per_epoch ws bs * bs * ws = 1280000) := by
  have hrearrange : steps_per_epoch ws bs * bs * ws
      = 1280000 / (ws * bs) * (ws * bs) := by
    unfold steps_per_epoch; ring
  constructor
  · rw [hrearrange]
    have h := Nat.div_add_mod 1280000 (ws * bs)
    have h2 : ws * bs * (1280000 / (ws * bs)) = 1280000 / (ws * bs) * (ws * bs) :=
      Nat.mul_comm _ _
    omega
  · intro hdvd
    rw [hrearrange]
    exact Nat.div_mul_cancel hdvd

/-- Claim C1 witness: at the defaults (`world_size = 1`, `batch_size = 128`)
the divisibility hypothesis holds and an epoch is exactly the dataset. -/
theorem steps_per_epoch_samples_witness :
    (1 * 128 ∣ 1280000) ∧ steps_per_epoch 1 128 * 128 * 1 = 1280000 :=
  ⟨by decide, (steps_per_epoch_samples 1 128).2 (by decide)⟩

/-- Claim C4: for `world_size > 1`, the sum-then-divide aggregation of
`valid_step` equals the spec's averaging all-reduce — the arithmetic mean of
the per-worker values. -/
theorem valid_step_agg_is_mean (ws : ℕ) (vals : List ℚ) (localVal : ℚ)
    (h1 : 1 < ws) (h2 : vals.length = ws) :
    valid_step_agg ws vals localVal = spec_allreduce_mean vals := by
  unfold valid_step_agg spec_allreduce_mean all_reduce_sum
  rw [if_pos h1, h2]

/-- Claim C4 witness: two workers with values `1` and `3` aggregate to the
mean `2`. -/
theorem valid_step_agg_is_mean_witness :
    (1 < 2 ∧ ([(1 : ℚ), 3]).length = 2) ∧
    valid_step_agg 2 [(1 : ℚ), 3] 7 = spec_allreduce_mean [(1 : ℚ), 3] :=
  ⟨⟨by decide, by decide⟩,
    valid_step_agg_is_mean 2 [(1 : ℚ), 3] 7 (by decide) (by decide)⟩

/-- Claim C2: `adjust_learning_rate` returns
`base_lr * (1 - step / (epochs * steps_per_epoch))`, writes that value into
every optimizer parameter group (preserving their number), and over the
executed steps `0 ≤ s < epochs * steps_per_epoch` the value is strictly
positive and strictly decreasing in the step. -/
theorem adjust_learning_rate_spec (base_lr : ℚ) (E spe : ℕ) (s : ℕ)
    (groups : List ℚ) (hb : 0 < base_lr) (hs : s < E * spe) :
    (adjust_learning_rate base_lr E spe s groups).2
        = base_lr * (1 - (s : ℚ) / ((E : ℚ) * (spe : ℚ))) ∧
    (∀ g ∈ (adjust_learning_rate base_lr E spe s groups).1,
        g = (adjust_learning_rate base_lr E spe s groups).2) ∧
    ((adjust_learning_rate base_lr E spe s groups).1).length = groups.length ∧
    0 < adjust_learning_rate_val base_lr E spe s ∧
    (∀ t, s < t → t < E * spe →
        adjust_learning_rate_val base_lr E spe t
          < adjust_learning_rate_val base_lr E spe s) := by
  have hTn : 0 < E * spe := Nat.lt_of_le_of_lt (Nat.zero_le s) hs
  have hT : (0 : ℚ) < (E : ℚ) * (spe : ℚ) := by exact_mod_cast hTn
  have hcast : ((E * spe : ℕ) : ℚ) = (E : ℚ) * (spe : ℚ) := by push_cast; ring
  refine ⟨rfl, ?_, ?_, ?_, ?_⟩
  · intro g hg
    simp only [adjust_learning_rate, List.mem_map] at hg
    obtain ⟨_, _, h⟩ := hg
    exact h.symm
  · simp [adjust_learning_rate]
  · unfold adjust_learning_rate_val
    apply mul_pos hb
    have hlt : (s : ℚ) < (E : ℚ) * (spe : ℚ) := by
      rw [← hcast]; exact_mod_cast hs
    have := (div_lt_one hT).mpr hlt
    linarith
  · intro t hst _
    unfold adjust_learning_rate_val
    apply mul_lt_mul_of_pos_left ?_ hb
    have hfrac : (s : ℚ) / ((E : ℚ) * (spe : ℚ))
        < (t : ℚ) / ((E : ℚ) * (spe : ℚ)) := by
      exact (div_lt_div_iff_of_pos_right hT).mpr (by exact_mod_cast hst)
    linarith

/-- Claim C2 witness: `base_lr = 1`, `epochs = 2`, `steps_per_epoch = 3`,
step `1`, two parameter groups. -/
theorem adjust_learning_rate_spec_witness :
    ((0 : ℚ) < 1 ∧ 1 < 2 * 3) ∧
    (adjust_learning_rate 1 2 3 1 [0, 0]).2
        = 1 * (1 - (1 : ℚ) / ((2 : ℚ) * (3 : ℚ))) ∧
    (∀ g ∈ (adjust_learning_rate 1 2 3 1 [0, 0]).1,
        g = (adjust_learning_rate 1 2 3 1 [0, 0]).2) ∧
    ((adjust_learning_rate 1 2 3 1 [0, 0]).1).length = ([(0 : ℚ), 0]).length ∧
    0 < adjust_learning_rate_val 1 2 3 1 ∧
    (∀ t, 1 < t → t < 2 * 3 →
        adjust_learning_rate_val 1 2 3 t < adjust_learning_rate_val 1 2 3 1) :=
  ⟨⟨by norm_num, by norm_num⟩,
    adjust_learning_rate_spec 1 2 3 1 [0, 0] (by norm_num) (by norm_num)⟩

theorem applyUpdates_cons (u : ℚ × ℚ) (rest : List (ℚ × ℚ)) (m : AverageMeter) :
    applyUpdates (u :: rest) m = applyUpdates rest (m.update u.1 u.2) := rfl

theorem applyUpdates_count (us : List (ℚ × ℚ)) (m : AverageMeter) :
    (applyUpdates us m).count = m.count + (us.map Prod.snd).sum := by
  induction us generalizing m with
  | nil => simp [applyUpdates]
  | cons u rest ih =>
      rw [applyUpdates_cons, ih]
      simp [AverageMeter.update]
      ring

theorem applyUpdates_sumv (us : List (ℚ × ℚ)) (m : AverageMeter) :
    (applyUpdates us m).sum = m.sum + (us.map fun u => u.1 * u.2).sum := by
  induction us generalizing m with
  | nil => simp [applyUpdates]
  | cons u rest ih =>
      rw [applyUpdates_cons, ih]
      simp [AverageMeter.update]
      ring

theorem applyUpdates_avg_eq (us : List (ℚ × ℚ)) (m : AverageMeter) (h : us ≠ []) :
    (applyUpdates us m).avg
      = (applyUpdates us m).sum / (applyUpdates us m).count := by
  induction us generalizing m with
  | nil => exact absurd rfl h
  | cons u rest ih =>
      rcases eq_or_ne rest [] with hr | hr
      · subst hr
        rfl
      · rw [applyUpdates_cons]
        exact ih _ hr

theorem applyUpdates_val_last (rest : List (ℚ × ℚ)) (v n : ℚ) (m : AverageMeter) :
    (applyUpdates (rest ++ [(v, n)]) m).val = v := by
  unfold applyUpdates
  rw [List.foldl_append]
  rfl

/-- Claim C3: after a `reset` followed by updates `(v_1, n_1), …, (v_k, n_k)`
with each `n_i ≥ 1`, the meter satisfies `count = Σ n_i`, `sum = Σ v_i·n_i`,
`avg = (Σ v_i·n_i) / (Σ n_i)`, and `val = v_k` (the last value). -/
theorem AverageMeter_spec (us : List (ℚ × ℚ)) (hn : ∀ u ∈ us, 1 ≤ u.2) :
    (applyUpdates us AverageMeter.reset).count = (us.map Prod.snd).sum ∧
    (applyUpdates us AverageMeter.reset).sum = (us.map fun u => u.1 * u.2).sum ∧
    (applyUpdates us AverageMeter.reset).avg
        = (us.map fun u => u.1 * u.2).sum / (us.map Prod.snd).sum ∧
    ∀ rest v n, us = rest ++ [(v, n)] →
        (applyUpdates us AverageMeter.reset).val = v := by
  have hc := applyUpdates_count us AverageMeter.reset
  have hs := applyUpdates_sumv us AverageMeter.reset
  rw [show AverageMeter.reset.count = 0 from rfl, zero_add] at hc
  rw [show AverageMeter.reset.sum = 0 from rfl, zero_add] at hs
  refine ⟨hc, hs, ?_, ?_⟩
  · rcases eq_or_ne us [] with h | h
    · subst h
      simp [applyUpdates, AverageMeter.reset]
    · rw [applyUpdates_avg_eq us _ h, hc, hs]
  · intro rest v n hsplit
    subst hsplit
    exact applyUpdates_val_last rest v n _

/-- Claim C3 witness: updates `(3, 1)` then `(5, 2)` give `count = 3`,
`sum = 13`, `avg = 13/3`, `val = 5`. -/
theorem AverageMeter_spec_witness :
    (∀ u ∈ [((3 : ℚ), (1 : ℚ)), (5, 2)], 1 ≤ u.2) ∧
    (applyUpdates [((3 : ℚ), (1 : ℚ)), (5, 2)] AverageMeter.reset).count = 3 ∧
    (applyUpdates [((3 : ℚ), (1 : ℚ)), (5, 2)] AverageMeter.reset).sum = 13 ∧
    (applyUpdates [((3 : ℚ), (1 : ℚ)), (5, 2)] AverageMeter.reset).avg = 13 / 3 ∧
    (applyUpdates [((3 : ℚ), (1 : ℚ)), (5, 2)] AverageMeter.reset).val = 5 := by
  have hn : ∀ u ∈ [((3 : ℚ), (1 : ℚ)), (5, 2)], 1 ≤ u.2 := by
    intro u hu
    simp only [List.mem_cons, List.not_mem_nil, or_false] at hu
    rcases hu with h | h <;> subst h <;> norm_num
  have h := AverageMeter_spec [((3 : ℚ), (1 : ℚ)), (5, 2)] hn
  refine ⟨hn, ?_, ?_, ?_, ?_⟩
  · rw [h.1]; norm_num
  · rw [h.2.1]; norm_num
  · rw [h.2.2.1]; norm_num
  · exact h.2.2.2 [(3, 1)] 5 2 rfl

theorem countP_eq_last (n : ℕ) :
    (List.range (n + 1)).countP (fun i => i == n) = 1 := by
  rw [List.range_succ, List.countP_append]
  have h0 : (List.range n).countP (fun i => i == n) = 0 := by
    rw [List.countP_eq_zero]
    intro a ha
    rw [List.mem_range] at ha
    simp only [beq_iff_eq]
    omega
  rw [h0]
  simp

theorem saves_in_epoch_count (spe : ℕ) (hspe : 0 < spe) (off : ℕ) :
    (List.range spe).countP (fun i => decide ((off * spe + i + 1) % spe = 0)) = 1 := by
  have hcong :
      (List.range spe).countP (fun i => decide ((off * spe + i + 1) % spe = 0))
        = (List.range spe).countP (fun i => i == spe - 1) := by
    apply List.countP_congr
    intro i hi
    rw [List.mem_range] at hi
    simp only [decide_eq_true_eq, beq_iff_eq]
    constructor
    · intro h
      have heq : off * spe + i + 1 = (i + 1) + off * spe := by ring
      rw [heq, Nat.add_mul_mod_self_right] at h
      have hdvd := Nat.dvd_of_mod_eq_zero h
      have hle := Nat.le_of_dvd (by omega) hdvd
      omega
    · intro h
      subst h
      have hsucc : spe - 1 + 1 = spe := Nat.succ_pred_eq_of_pos hspe
      rw [Nat.add_assoc, hsucc, ← Nat.succ_mul]
      exact Nat.mul_mod_left _ _
  rw [hcong]
  obtain ⟨m, rfl⟩ : ∃ m, spe = m + 1 := ⟨spe - 1, by omega⟩
  simpa using countP_eq_last m

theorem saves_count_range (spe : ℕ) (hspe : 0 < spe) (E : ℕ) :
    (List.range (E * spe)).countP (fun s => decide ((s + 1) % spe = 0)) = E := by
  induction E with
  | zero => simp
  | succ e ih =>
      have hmul : (e + 1) * spe = e * spe + spe := by ring
      rw [hmul, List.range_add, List.countP_append, ih, List.countP_map]
      have hone : (List.range spe).countP
          ((fun s => decide ((s + 1) % spe = 0)) ∘ fun x => e * spe + x) = 1 := by
        simpa [Function.comp] using saves_in_epoch_count spe hspe e
      rw [hone]

theorem countP_isSave_stepEvents (spe s : ℕ) :
    (stepEvents spe s).countP Event.isSave
      = if (s + 1) % spe = 0 then 1 else 0 := by
  unfold stepEvents
  by_cases h : (s + 1) % spe = 0
  · simp [h, Event.isSave, List.countP_cons, List.countP_nil]
  · simp [h, Event.isSave, List.countP_cons, List.countP_nil]

theorem sum_mod_indicator (l : List ℕ) (spe : ℕ) :
    (l.map fun s => if (s + 1) % spe = 0 then 1 else 0).sum
      = l.countP fun s => decide ((s + 1) % spe = 0) := by
  induction l with
  | nil => rfl
  | cons a t ih =>
      rw [List.map_cons, List.sum_cons, List.countP_cons, ih]
      by_cases h : (a + 1) % spe = 0
      · simp [h]
        omega
      · simp [h]

theorem runEvents_save_count (E spe : ℕ) (hspe : 0 < spe) :
    (runEvents E spe).countP Event.isSave = E := by
  unfold runEvents
  rw [List.countP_flatMap]
  have hmap :
      List.map (List.countP Event.isSave ∘ stepEvents spe) (List.range (E * spe))
        = List.map (fun s => if (s + 1) % spe = 0 then 1 else 0)
            (List.range (E * spe)) := by
    apply List.map_congr_left
    intro s _
    simp [Function.comp, countP_isSave_stepEvents]
  rw [hmap, sum_mod_indicator, saves_count_range spe hspe E]

theorem save_mem_stepEvents (spe s t e : ℕ) :
    Event.save t e ∈ stepEvents spe s
      ↔ t = s ∧ (s + 1) % spe = 0 ∧ e = (s + 1) / spe := by
  unfold stepEvents
  by_cases h : (s + 1) % spe = 0 <;> simp [h]

/-- Claim C5: a checkpoint save event occurs at step `s` iff
`(s + 1) % steps_per_epoch = 0`, it records `epoch = (s + 1) / steps_per_epoch`,
within such a step the events are exactly training, then validation, then the
save (so the save always follows the validation pass), at every other step the
body is only the training step, and over the whole run exactly `args.epochs`
checkpoints are written. -/
theorem checkpoint_spec (E spe : ℕ) (hspe : 0 < spe) :
    (∀ s e, Event.save s e ∈ runEvents E spe ↔
        s < E * spe ∧ (s + 1) % spe = 0 ∧ e = (s + 1) / spe) ∧
    (∀ s, (s + 1) % spe = 0 →
        stepEvents spe s
          = [Event.train s, Event.validate s, Event.save s ((s + 1) / spe)]) ∧
    (∀ s, (s + 1) % spe ≠ 0 → stepEvents spe s = [Event.train s]) ∧
    (runEvents E spe).countP Event.isSave = E := by
  refine ⟨?_, ?_, ?_, runEvents_save_count E spe hspe⟩
  · intro s e
    unfold runEvents
    rw [List.mem_flatMap]
    constructor
    · rintro ⟨x, hx, hmem⟩
      rw [List.mem_range] at hx
      rw [save_mem_stepEvents] at hmem
      obtain ⟨rfl, h2, h3⟩ := hmem
      exact ⟨hx, h2, h3⟩
    · rintro ⟨h1, h2, h3⟩
      exact ⟨s, List.mem_range.mpr h1,
        (save_mem_stepEvents spe s s e).mpr ⟨rfl, h2, h3⟩⟩
  · intro s h
    unfold stepEvents
    rw [if_pos h]
    rfl
  · intro s h
    unfold stepEvents
    rw [if_neg h]
    rfl

/-- Claim C5 witness: two epochs of three steps yield exactly two
checkpoint saves. -/
theorem checkpoint_spec_witness :
    0 < 3 ∧ (runEvents 2 3).countP Event.isSave = 2 :=
  ⟨by decide, (checkpoint_spec 2 3 (by decide)).2.2.2⟩

/-- Claim C6: `main` launches exactly `ngpus_per_node` workers; their global
ranks are the pairwise-distinct values `args.rank * ngpus_per_node + local_rank`
for `local_rank` in `0 .. ngpus_per_node - 1`; every worker receives
`world_size = args.world_size * ngpus_per_node`; and a worker joins the
process group — on device `rank % ngpus_per_node` — exactly when that
`world_size` exceeds `1`. -/
theorem launch_spec (r w g : ℕ) :
    (launch r w g).length = g ∧
    (launch r w g).map WorkerCfg.rank = (List.range g).map (fun l => r * g + l) ∧
    ((launch r w g).map WorkerCfg.rank).Nodup ∧
    ∀ cfg ∈ launch r w g,
        cfg.world_size = w * g ∧
        (worker_joins_group cfg = true ↔ 1 < w * g) ∧
        worker_device cfg = cfg.rank % g := by
  have hmap : (launch r w g).map WorkerCfg.rank
      = (List.range g).map (fun l => r * g + l) := by
    unfold launch
    rw [List.map_map]
    rfl
  refine ⟨?_, hmap, ?_, ?_⟩
  · unfold launch
    rw [List.length_map, List.length_range]
  · rw [hmap]
    exact (List.nodup_range g).map (fun a b h => by omega)
  · intro cfg hcfg
    unfold launch at hcfg
    rw [List.mem_map] at hcfg
    obtain ⟨l, _, rfl⟩ := hcfg
    refine ⟨rfl, ?_, rfl⟩
    simp [worker_joins_group]

/-- Claim C7: for a single-process run (`world_size = 1`) the worker skips
`init_process_group` and the parameter broadcast, attaches the gradient
manager with no all-reduce callback, and `valid_step` returns the local
loss, acc1 and acc5 unchanged. -/
theorem single_process_spec :
    worker_bootstrap 1
        = { init_group := false, bcast_params := false, allreduce_cb := none } ∧
    ∀ (vals : List ℚ) (v : ℚ), valid_step_agg 1 vals v = v := by
  constructor
  · rfl
  · intro vals v
    simp [valid_step_agg]

/-- Claim C8: the numeric options (`--epochs`, `--batch-size`, `--lr`,
`--momentum`, `--weight-decay`, `--world-size`, `--rank`, `--dist-port`) are
declared without a `type=` converter, so any explicitly supplied value is the
raw string; comparing that string with the integer `0` — as `args.rank <= 0`
does — raises `TypeError`, while the integer default compares fine, so the
arithmetic is well-typed only when those options keep their defaults. -/
theorem untyped_options_spec :
    (∀ s : String, argparse_value (PyVal.int 0) (some s) = PyVal.str s) ∧
    (∀ s : String,
        pyLe (argparse_value (PyVal.int 0) (some s)) (PyVal.int 0)
          = Except.error "TypeError") ∧
    argparse_value (PyVal.int 0) none = PyVal.int 0 ∧
    pyLe (argparse_value (PyVal.int 0) none) (PyVal.int 0) = Except.ok true :=
  ⟨fun _ => rfl, fun _ => rfl, rfl, rfl⟩

theorem split_params_go (ps : List ParamInfo) (accWd accNwd : List ParamInfo) :
    ps.foldl
      (fun acc p =>
        if weight_decay_param p then (acc.1 ++ [p], acc.2)
        else (acc.1, acc.2 ++ [p]))
      (accWd, accNwd)
      = (accWd ++ ps.filter weight_decay_param,
         accNwd ++ ps.filter fun p => ! weight_decay_param p) := by
  induction ps generalizing accWd accNwd with
  | nil => simp
  | cons p t ih =>
      rw [List.foldl_cons]
      by_cases h : weight_decay_param p
      · simp [h, ih, List.filter_cons]
      · simp [h, ih, List.filter_cons]

/-- Claim C9: the optimizer's two parameter groups partition
`model.named_parameters()`: a parameter is placed in the weight-decay group
iff its name contains the substring `"weight"` and its shape has more than
one dimension, every other parameter is placed in the group whose
weight decay is overridden to `0`, and the two groups together are a
permutation of the full parameter list, so each parameter is in exactly one
group and none is omitted. -/
theorem split_params_partition (ps : List ParamInfo) :
    (split_params ps).1 = ps.filter weight_decay_param ∧
    (split_params ps).2 = (ps.filter fun p => ! weight_decay_param p) ∧
    (∀ p, p ∈ (split_params ps).1 ↔
        p ∈ ps ∧ "weight".data <:+: p.name.data ∧ 1 < p.shape.length) ∧
    (∀ p, p ∈ (split_params ps).2 ↔
        p ∈ ps ∧ ¬("weight".data <:+: p.name.data ∧ 1 < p.shape.length)) ∧
    ((split_params ps).1 ++ (split_params ps).2).Perm ps := by
  have hgo := split_params_go ps [] []
  have h1 : (split_params ps).1 = ps.filter weight_decay_param := by
    unfold split_params
    rw [hgo]
    rfl
  have h2 : (split_params ps).2 = (ps.filter fun p => ! weight_decay_param p) := by
    unfold split_params
    rw [hgo]
    rfl
  refine ⟨h1, h2, ?_, ?_, ?_⟩
  · intro p
    rw [h1, List.mem_filter]
    simp [weight_decay_param]
  · intro p
    rw [h2, List.mem_filter]
    simp [weight_decay_param]
    tauto
  · rw [h1, h2]
    exact List.filter_append_perm _ ps

/-- Claim C10: when the validation data queue yields no batches, `valid`
performs no meter updates — the meters keep their reset state — and returns
`(0, 0, 0)`; moreover `update` divides only by a count that is positive
whenever the previous count is nonnegative and the update's `n` is at
least `1`, so no division by zero occurs. -/
theorem valid_empty_spec :
    valid [] = (0, 0, 0) ∧
    ([] : List Batch).foldl validBody validInit = validInit ∧
    ∀ (m : AverageMeter) (v n : ℚ), 0 ≤ m.count → 1 ≤ n →
        0 < (m.update v n).count := by
  refine ⟨rfl, rfl, ?_⟩
  intro m v n h1 h2
  show 0 < m.count + n
  linarith

/-- Claim C10 witness: an update of `(5, 1)` on a freshly reset meter has
positive count, and `valid` on the empty queue returns `(0, 0, 0)`. -/
theorem valid_empty_spec_witness :
    ((0 : ℚ) ≤ AverageMeter.reset.count ∧ (1 : ℚ) ≤ 1) ∧
    valid [] = (0, 0, 0) ∧
    0 < (AverageMeter.reset.update 5 1).count :=
  ⟨⟨by norm_num [AverageMeter.reset], by norm_num⟩,
    valid_empty_spec.1,
    valid_empty_spec.2.2 AverageMeter.reset 5 1
      (by norm_num [AverageMeter.reset]) (by norm_num)⟩

end Train
